import Mathlib

/-!
# Verification of the svelte-webext-stores synchronization core

Shallow embedding of the store/backend synchronization protocol of the
`svelte-webext-stores` library (the `syncStore` factory of
`src/stores/sync-store.ts`, the `webExtStores` registry of
`src/web-ext-stores.ts`, and the storage-backend contract), together with
theorems settling the specification claims about it.

Modelling conventions:
* The storage backend is a total map `String → Option V`; `undefined`
  (value absent) is `none`.  Backend `get`/`set`/`remove` are the pure
  state transformers of the mock semantics of `chrome.storage` /
  `localStorage` adapters.
* Every store/backend operation additionally returns a chronological
  event trace (`Ev`) recording subscriber notifications, cache updates
  and backend reads/writes/removals, in the order the source code
  performs them.  Temporal claims are stated over those traces.
* A JS `Map` is an association list in insertion order (`mapGet` returns
  the entry for a key, `mapSet` replaces in place or appends).
* JS strict equality `===` on the (primitive) stored values is modelled
  by decidable equality on `V`.
-/

set_option autoImplicit false

namespace SvelteWebextStores

variable {V : Type}

/-- Persistent key-value backend state: `data k = none` models a key that
is absent (`undefined` in the JS API). -/
structure Backend (V : Type) where
  data : String → Option V

/-- `backend.get(key)` — returns the stored value or `undefined`. -/
def Backend.get (b : Backend V) (k : String) : Option V := b.data k

/-- `backend.set(key, value)` — stores `value` under `key`. -/
def Backend.setVal (b : Backend V) (k : String) (v : V) : Backend V :=
  ⟨fun k' => if k' = k then some v else b.data k'⟩

/-- `backend.remove(key)` — deletes the entry under `key`. -/
def Backend.removeKey (b : Backend V) (k : String) : Backend V :=
  ⟨fun k' => if k' = k then none else b.data k'⟩

/-- Observable events emitted while a store operation runs, in program
order: subscriber notification (`svelte` writable `store.set`), cache
assignment (`currentValue = value`), and the backend calls. -/
inductive Ev (V : Type) where
  | notify (value : V)
  | cacheUpdate (value : V)
  | bRead (key : String) (result : Option V)
  | bWrite (key : String) (value : V)
  | bRemove (key : String)
  deriving DecidableEq

/-- `VersionedOptions` of `sync-store.ts`: current version, separator, and
the migrations `Map` in insertion order (an omitted map is the empty
list, over which the migration loop does nothing, as in the source). -/
structure VersionedOptions (V : Type) where
  version : Int
  seperator : String
  migrations : List (Int × (V → V))

/-- The mutable state captured by the `syncStore` closure: base key
(`keyPure`), effective key (`key`, reassigned at construction when
versioned options are given), default value, external-sync flag, the
versioned options, the cached `currentValue`, the chronological list of
values pushed to the `svelte` writable store (`notified`, last element =
value currently seen by subscribers), and the `isReady` flag. -/
structure SyncStore (V : Type) where
  keyPure : String
  key : String
  defaultValue : V
  syncFromExternal : Bool
  versionedOptions : Option (VersionedOptions V)
  currentValue : V
  notified : List V
  isReady : Bool

/-- The effective storage key: `keyPure` alone for a plain store, and the
template literal `` `${keyPure}${seperator}${version}` `` when versioned
options are supplied. -/
def effectiveKey (keyPure : String) (vo : Option (VersionedOptions V)) : String :=
  match vo with
  | none => keyPure
  | some o => keyPure ++ o.seperator ++ toString o.version

/-- The `syncStore` factory (initialization part): cache starts at
`defaultValue`, nothing notified yet, `isReady = false`, and the
effective key is computed from the versioned options. -/
def syncStore (key : String) (defaultValue : V) (syncFromExternal : Bool)
    (vo : Option (VersionedOptions V)) : SyncStore V :=
  { keyPure := key
    key := effectiveKey key vo
    defaultValue := defaultValue
    syncFromExternal := syncFromExternal
    versionedOptions := vo
    currentValue := defaultValue
    notified := []
    isReady := false }

/-- `setStore(value)`: pushes `value` to the writable store (notifying
subscribers) and then assigns the cache, exactly in that order. -/
def setStore (s : SyncStore V) (v : V) : SyncStore V × List (Ev V) :=
  ({ s with notified := s.notified ++ [v], currentValue := v },
   [Ev.notify v, Ev.cacheUpdate v])

/-- `set(value)`: `setStore(value)` followed by the backend write under
the effective key. -/
def SyncStore.set (s : SyncStore V) (b : Backend V) (v : V) :
    SyncStore V × Backend V × List (Ev V) :=
  let p := setStore s v
  (p.1, b.setVal s.key v, p.2 ++ [Ev.bWrite s.key v])

/-- `getCurrent()`: returns the cache without touching the backend. -/
def SyncStore.getCurrent (s : SyncStore V) : V := s.currentValue

/-- `updateFromBackend()`: reads the effective key; if absent, seeds the
backend with `defaultValue` (leaving the cache untouched); if present,
adopts the value into the store via `setStore`. -/
def updateFromBackend (s : SyncStore V) (b : Backend V) :
    SyncStore V × Backend V × List (Ev V) :=
  match b.get s.key with
  | none =>
      (s, b.setVal s.key s.defaultValue,
       [Ev.bRead s.key none, Ev.bWrite s.key s.defaultValue])
  | some v =>
      let p := setStore s v
      (p.1, b, Ev.bRead s.key (some v) :: p.2)

/-- One iteration of the migration loop of `ready()`: compute the old
effective key (base key alone for the `-1` sentinel, else
`` `${keyPure}${seperator}${oldVersion}` ``), read it; absent is a
no-op; present applies `migrate` and `set`s the result under the current
effective key, then removes the old key. -/
def migrateStep (sep : String) (s : SyncStore V) (b : Backend V)
    (ov : Int) (migrate : V → V) : SyncStore V × Backend V × List (Ev V) :=
  let oldKey := if ov = -1 then s.keyPure else s.keyPure ++ sep ++ toString ov
  match b.get oldKey with
  | none => (s, b, [Ev.bRead oldKey none])
  | some oldValue =>
      let r := s.set b (migrate oldValue)
      (r.1, (r.2.1).removeKey oldKey,
       Ev.bRead oldKey (some oldValue) :: r.2.2 ++ [Ev.bRemove oldKey])

/-- The migration loop of `ready()`: the strategies are processed in the
order supplied by the caller. -/
def runMigrations (sep : String) :
    List (Int × (V → V)) → SyncStore V → Backend V →
    SyncStore V × Backend V × List (Ev V)
  | [], s, b => (s, b, [])
  | (ov, migrate) :: rest, s, b =>
      let r := migrateStep sep s b ov migrate
      let r' := runMigrations sep rest r.1 r.2.1
      (r'.1, r'.2.1, r.2.2 ++ r'.2.2)

/-- `ready()`: a no-op once `isReady`; otherwise `updateFromBackend()`
followed by the migration loop (when versioned options are present),
and only then `isReady = true`. -/
def ready (s : SyncStore V) (b : Backend V) :
    SyncStore V × Backend V × List (Ev V) :=
  if s.isReady then (s, b, [])
  else
    let r := updateFromBackend s b
    let r' :=
      match r.1.versionedOptions with
      | none => (r.1, r.2.1, ([] : List (Ev V)))
      | some vo => runMigrations vo.seperator vo.migrations r.1 r.2.1
    ({ r'.1 with isReady := true }, r'.2.1, r.2.2 ++ r'.2.2)

/-- `get()`: awaits `ready()` and returns the cache. -/
def SyncStore.get (s : SyncStore V) (b : Backend V) :
    V × SyncStore V × Backend V × List (Ev V) :=
  let r := ready s b
  (r.1.currentValue, r.1, r.2.1, r.2.2)

/-- `reset()`: `set(defaultValue)`. -/
def SyncStore.reset (s : SyncStore V) (b : Backend V) :
    SyncStore V × Backend V × List (Ev V) :=
  s.set b s.defaultValue

/-- `set(value)` against a backend whose `set` may reject (quota or I/O
error): the cache update and notification happen first; the returned
flag is `false` when the backend write rejected, in which case the
rejection propagates to the caller of `set` (there is no `catch` in
`set`) and the backend state is unchanged. -/
def SyncStore.setFallible (failing : String → Bool) (s : SyncStore V)
    (b : Backend V) (v : V) : SyncStore V × Backend V × List (Ev V) × Bool :=
  let p := setStore s v
  if failing s.key then
    (p.1, b, p.2, false)
  else
    (p.1, b.setVal s.key v, p.2 ++ [Ev.bWrite s.key v], true)

/-! ## Registry (`webExtStores` of `src/web-ext-stores.ts`) -/

/-- JS `Map.prototype.get`: first (unique) entry with the given key. -/
def mapGet {A : Type} : List (String × A) → String → Option A
  | [], _ => none
  | (k', a) :: rest, k => if k' = k then some a else mapGet rest k

/-- JS `Map.prototype.set`: replace the entry in place when the key is
present, else append at the end (insertion order preserved). -/
def mapSet {A : Type} : List (String × A) → String → A → List (String × A)
  | [], k, a => [(k, a)]
  | (k', a') :: rest, k, a =>
      if k' = k then (k, a) :: rest else (k', a') :: mapSet rest k a

/-- The registry's internal key-to-store map (`const stores: Map<string,
ISyncStore<any>> = new Map()`), in insertion order. -/
structure Registry (V : Type) where
  stores : List (String × SyncStore V)

/-- `addSyncStore(key, defaultValue, syncFromExternal, versionedOptions)`
of `src/web-ext-stores.ts`: builds the store through `syncStore` and
registers it under the `key` *parameter* (the base key), `stores.set(key,
store)`. -/
def addSyncStore (r : Registry V) (key : String) (defaultValue : V)
    (syncFromExternal : Bool) (vo : Option (VersionedOptions V)) :
    SyncStore V × Registry V :=
  let store := syncStore key defaultValue syncFromExternal vo
  (store, ⟨mapSet r.stores key store⟩)

/-- One entry of a backend change batch.  `oldValue` may be absent
(`undefined`), modelling a key creation; a batch entry whose `newValue`
is absent (a deletion) is outside the claims considered here and is not
modelled. -/
structure StorageChange (V : Type) where
  oldValue : Option V
  newValue : V

/-- The registry's single backend change listener of
`src/web-ext-stores.ts` (stale-notification-guard variant), for one
changed key: skip when no store is registered under the key, when the
store has `syncFromExternal` disabled, or when the reported `oldValue`
differs (`!==`) from the store's `getCurrent()`; otherwise apply the
change with `store.set(change.newValue)`. -/
def dispatchOne [DecidableEq V] (r : Registry V) (b : Backend V)
    (key : String) (ch : StorageChange V) :
    Registry V × Backend V × List (Ev V) :=
  match mapGet r.stores key with
  | none => (r, b, [])
  | some s =>
      if s.syncFromExternal = true ∧ ch.oldValue = some s.currentValue then
        let u := s.set b ch.newValue
        (⟨mapSet r.stores key u.1⟩, u.2.1, u.2.2)
      else (r, b, [])

/-- The listener applied to a whole change batch, in the batch's key
iteration order. -/
def dispatchChanges [DecidableEq V] (r : Registry V) (b : Backend V) :
    List (String × StorageChange V) → Registry V × Backend V × List (Ev V)
  | [] => (r, b, [])
  | (k, ch) :: rest =>
      let u := dispatchOne r b k ch
      let u' := dispatchChanges u.1 u.2.1 rest
      (u'.1, u'.2.1, u.2.2 ++ u'.2.2)

/-- `setRaw(value)` of the later store iteration: short-circuits when the
incoming value strictly equals the cache, else `setStore(value)`; never
touches the backend. -/
def SyncStore.setRaw [DecidableEq V] (s : SyncStore V) (v : V) :
    SyncStore V × List (Ev V) :=
  if v = s.currentValue then (s, []) else setStore s v

/-- The change listener of the `setRaw` registry variant, for one changed
key: skip when no store is registered or external sync is disabled (no
stale guard); otherwise `store.setRaw(change.newValue)`.  The backend is
not an input: this path cannot write to it. -/
def dispatchOneRaw [DecidableEq V] (r : Registry V) (key : String)
    (ch : StorageChange V) : Registry V × List (Ev V) :=
  match mapGet r.stores key with
  | none => (r, [])
  | some s =>
      if s.syncFromExternal = true then
        let u := s.setRaw ch.newValue
        (⟨mapSet r.stores key u.1⟩, u.2)
      else (r, [])

/-- `exportJson` iteration: for each registered store in insertion order,
`result[key] = await store.get()` (which may run the store's readiness
pull and mutate the store and the backend).  `JSON.stringify` followed by
`JSON.parse` reconstructs the same record for JSON-serializable values,
so the wire format is modelled as the association list of exported
entries itself. -/
def exportStores : List (String × SyncStore V) → Backend V →
    List (String × V) × List (String × SyncStore V) × Backend V
  | [], b => ([], [], b)
  | (k, s) :: rest, b =>
      let g := SyncStore.get s b
      let r := exportStores rest g.2.2.1
      ((k, g.1) :: r.1, (k, g.2.1) :: r.2.1, r.2.2)

/-- `exportJson()` of `src/web-ext-stores.ts`. -/
def exportJson (r : Registry V) (b : Backend V) :
    List (String × V) × Registry V × Backend V :=
  let e := exportStores r.stores b
  (e.1, ⟨e.2.1⟩, e.2.2)

/-- `importJson` iteration: for each entry of the parsed data, look up
the registered store under the entry's key; `continue` when none is
registered, else `await store.set(value)`. -/
def importStores : List (String × V) → List (String × SyncStore V) →
    Backend V → List (String × SyncStore V) × Backend V
  | [], m, b => (m, b)
  | (k, v) :: rest, m, b =>
      match mapGet m k with
      | none => importStores rest m b
      | some s =>
          let u := SyncStore.set s b v
          importStores rest (mapSet m k u.1) u.2.1

/-- `importJson(json)` of `src/web-ext-stores.ts`. -/
def importJson (r : Registry V) (b : Backend V) (data : List (String × V)) :
    Registry V × Backend V :=
  let i := importStores data r.stores b
  (⟨i.1⟩, i.2)

/-! ## Interleaved execution of `ready()` (cooperative scheduling)

Two tasks invoke `ready()` on the same (plain, non-versioned) store.
A task's program counter sits between the `await` suspension points of
`ready`/`updateFromBackend`: `start` is before the `isReady` check,
`resumeGet r` is the continuation after `await backend.get(key)`
resolved with `r`, `done` is after `isReady = true`.  The absent-branch
backend write and the subsequent flag assignment are merged into one
resumption step; merging only makes steps coarser, so any interleaving
exhibited here also exists at the finer granularity of the source. -/

inductive TaskPC (V : Type) where
  | start
  | resumeGet (result : Option V)
  | done
  deriving DecidableEq

/-- Run one task of `ready()` from its current program counter to its
next suspension point, returning the new shared store/backend state, the
new program counter and the events of this segment. -/
def readyStep (s : SyncStore V) (b : Backend V) :
    TaskPC V → SyncStore V × Backend V × TaskPC V × List (Ev V)
  | TaskPC.start =>
      if s.isReady then (s, b, TaskPC.done, [])
      else (s, b, TaskPC.resumeGet (b.get s.key), [Ev.bRead s.key (b.get s.key)])
  | TaskPC.resumeGet none =>
      ({ s with isReady := true }, b.setVal s.key s.defaultValue,
       TaskPC.done, [Ev.bWrite s.key s.defaultValue])
  | TaskPC.resumeGet (some v) =>
      let p := setStore s v
      ({ p.1 with isReady := true }, b, TaskPC.done, p.2)
  | TaskPC.done => (s, b, TaskPC.done, [])

/-- Shared world of two concurrent `ready()` invocations on one store. -/
structure TwoReadyWorld (V : Type) where
  store : SyncStore V
  backend : Backend V
  pcA : TaskPC V
  pcB : TaskPC V
  trace : List (Ev V)

/-- Scheduler step: run the chosen task (`false` = A, `true` = B) for one
segment. -/
def schedStep (w : TwoReadyWorld V) (second : Bool) : TwoReadyWorld V :=
  if second then
    let r := readyStep w.store w.backend w.pcB
    ⟨r.1, r.2.1, w.pcA, r.2.2.1, w.trace ++ r.2.2.2⟩
  else
    let r := readyStep w.store w.backend w.pcA
    ⟨r.1, r.2.1, r.2.2.1, w.pcB, w.trace ++ r.2.2.2⟩

/-- Run a whole cooperative schedule. -/
def runSched (w : TwoReadyWorld V) : List Bool → TwoReadyWorld V
  | [] => w
  | c :: rest => runSched (schedStep w c) rest

/-- Both tasks poised to call `ready()` on the same store. -/
def initTwoReady (s : SyncStore V) (b : Backend V) : TwoReadyWorld V :=
  ⟨s, b, TaskPC.start, TaskPC.start, []⟩

/-- Whether an event is a backend read. -/
def isReadEv : Ev V → Bool
  | Ev.bRead _ _ => true
  | _ => false

/-- Number of backend reads in a trace. -/
def readCount (tr : List (Ev V)) : Nat := (tr.filter isReadEv).length

/-! ## Specification-side description of the migration pass (spec §4.3)

Companion definitions written from the specification's wording, to be
compared with `runMigrations` (which is translated from the source). -/

/-- Spec §4.3 step 1: the old effective key of a migration strategy —
the base key alone for the unversioned sentinel `-1`, else
`baseKey ⧺ separator ⧺ oldVersion`. -/
def migOldKey (keyPure sep : String) (ov : Int) : String :=
  if ov = -1 then keyPure else keyPure ++ sep ++ toString ov

/-- Spec §4.3 steps 2–4, as an event trace over the *initial* backend
`b0`: per strategy in caller order, a read of its old key; an absent old
key contributes nothing further (no-op); a present one contributes the
subscriber notification and cache update with the migrated value, the
backend write of that value under the current effective key, and the
removal of the old key. -/
def specMigrationTrace (keyPure sep key : String) (b0 : Backend V) :
    List (Int × (V → V)) → List (Ev V)
  | [] => []
  | (ov, f) :: rest =>
      let k := migOldKey keyPure sep ov
      match b0.get k with
      | none => Ev.bRead k none :: specMigrationTrace keyPure sep key b0 rest
      | some v =>
          Ev.bRead k (some v) :: Ev.notify (f v) :: Ev.cacheUpdate (f v) ::
          Ev.bWrite key (f v) :: Ev.bRemove k ::
          specMigrationTrace keyPure sep key b0 rest

/-- Spec §4.3 step 4 ("the last one processed wins"): the cached value
after the migration pass, starting from `c`, over the initial backend. -/
def specMigrationValue (keyPure sep : String) (b0 : Backend V) (c : V) :
    List (Int × (V → V)) → V
  | [] => c
  | (ov, f) :: rest =>
      match b0.get (migOldKey keyPure sep ov) with
      | none => specMigrationValue keyPure sep b0 c rest
      | some v => specMigrationValue keyPure sep b0 (f v) rest

/-- Same fold for the backend entry under the current effective key
(`none`/`some` tracks absence). -/
def specMigrationValueO (keyPure sep : String) (b0 : Backend V) (o : Option V) :
    List (Int × (V → V)) → Option V
  | [] => o
  | (ov, f) :: rest =>
      match b0.get (migOldKey keyPure sep ov) with
      | none => specMigrationValueO keyPure sep b0 o rest
      | some v => specMigrationValueO keyPure sep b0 (some (f v)) rest

/-- The observable state the reset-idempotence claim speaks about: the
cached value, the value currently seen by subscribers (the last notified
value), and the full backend contents. -/
def observableState (s : SyncStore V) (b : Backend V) :
    V × Option V × (String → Option V) :=
  (s.currentValue, s.notified.getLast?, b.data)

/-! ## Concrete instances used by witnesses and counterexamples -/

/-- Migration strategies of the C3 witness: an unversioned-sentinel
strategy followed by a version-0 strategy. -/
def wMigs : List (Int × (Int → Int)) := [(-1, fun v => v + 1000), (0, fun v => v * 2)]

/-- Versioned store at version 1 with the two witness strategies. -/
def wMigStore : SyncStore Int := syncStore "arch" 0 true (some ⟨1, "$$", wMigs⟩)

/-- Backend holding values under both old keys (`"arch"`, `"arch$$0"`). -/
def wMigBackend : Backend Int :=
  ⟨fun k => if k = "arch" then some 64 else if k = "arch$$0" then some 7 else none⟩

/-- Versioned store at version 1 with a single sentinel strategy. -/
def wMigStoreC4 : SyncStore Int :=
  syncStore "arch" 0 true (some ⟨1, "$$", [(-1, fun v => v + 1)]⟩)

/-- Backend with a value only under the unversioned key `"arch"`; the
current effective key `"arch$$1"` is absent. -/
def wBackendC4 : Backend Int := ⟨fun k => if k = "arch" then some 10 else none⟩

/-- Plain store used in the concurrent-`ready()` schedule. -/
def wPlainStore : SyncStore Int := syncStore "k" 0 true none

/-- Backend already holding a value under `"k"`. -/
def wBackendC1 : Backend Int := ⟨fun k => if k = "k" then some 5 else none⟩

/-- Plain store with cache `1`, registered in `wRegistry` under `"k"`. -/
def wRegStore : SyncStore Int := syncStore "k" 1 true none

/-- Registry with the single store `wRegStore`. -/
def wRegistry : Registry Int := ⟨[("k", wRegStore)]⟩

/-- Change batch entry reporting `1 → 2` (matching `wRegStore`'s cache). -/
def wChange : StorageChange Int := ⟨some 1, 2⟩

/-- An empty backend. -/
def wEmptyBackend : Backend Int := ⟨fun _ => none⟩

/-- Registry with two plain stores, used by the C10 witness. -/
def wRegistry10 : Registry Int :=
  ⟨[("a", syncStore "a" 1 true none), ("b", syncStore "b" 2 true none)]⟩

/-! ## Basic lemmas -/

@[simp] theorem Backend.get_setVal (b : Backend V) (k k' : String) (v : V) :
    (b.setVal k v).get k' = if k' = k then some v else b.get k' := rfl

@[simp] theorem Backend.get_removeKey (b : Backend V) (k k' : String) :
    (b.removeKey k).get k' = if k' = k then none else b.get k' := rfl

@[simp] theorem setStore_key (s : SyncStore V) (v : V) :
    ((setStore s v).1).key = s.key := rfl

@[simp] theorem setStore_keyPure (s : SyncStore V) (v : V) :
    ((setStore s v).1).keyPure = s.keyPure := rfl

@[simp] theorem setStore_currentValue (s : SyncStore V) (v : V) :
    ((setStore s v).1).currentValue = v := rfl

@[simp] theorem setStore_notified (s : SyncStore V) (v : V) :
    ((setStore s v).1).notified = s.notified ++ [v] := rfl

@[simp] theorem setStore_isReady (s : SyncStore V) (v : V) :
    ((setStore s v).1).isReady = s.isReady := rfl

@[simp] theorem setStore_versionedOptions (s : SyncStore V) (v : V) :
    ((setStore s v).1).versionedOptions = s.versionedOptions := rfl

@[simp] theorem setStore_defaultValue (s : SyncStore V) (v : V) :
    ((setStore s v).1).defaultValue = s.defaultValue := rfl

@[simp] theorem setStore_syncFromExternal (s : SyncStore V) (v : V) :
    ((setStore s v).1).syncFromExternal = s.syncFromExternal := rfl

/-! ## Claim theorems: plain store operations -/

/-- C6: for every store state, backend and value `v`, `set(v)` first
notifies subscribers with `v`, then updates the in-memory cache to `v`,
and only after both issues the backend write of `v` under the store's
key — the event trace is exactly notification, cache update, backend
write, in that order, and the post-state cache holds `v` with `v`
delivered to subscribers. -/
theorem C6_set_notifies_and_caches_before_backend_write
    (s : SyncStore V) (b : Backend V) (v : V) :
    (s.set b v).2.2 = [Ev.notify v, Ev.cacheUpdate v, Ev.bWrite s.key v]
    ∧ (s.set b v).1.currentValue = v
    ∧ (s.set b v).1.notified = s.notified ++ [v]
    ∧ (s.set b v).2.1 = b.setVal s.key v :=
  ⟨rfl, rfl, rfl, rfl⟩

/-- C7: when the backend write inside `set(v)` fails, the failure is
reported to the caller of `set` (returned flag `false`, nothing catches
it inside `set`), the cached value remains `v` (the optimistic update is
not rolled back), subscribers have still been notified with `v`, and the
backend is unchanged. -/
theorem C7_failed_set_keeps_optimistic_cache
    (failing : String → Bool) (s : SyncStore V) (b : Backend V) (v : V)
    (h : failing s.key = true) :
    (SyncStore.setFallible failing s b v).2.2.2 = false
    ∧ (SyncStore.setFallible failing s b v).1.currentValue = v
    ∧ (SyncStore.setFallible failing s b v).1.notified = s.notified ++ [v]
    ∧ (SyncStore.setFallible failing s b v).2.1 = b := by
  simp [SyncStore.setFallible, h]

/-- Witness for C7 at a concrete input: a backend failing on every key,
a fresh store with key `"k"` and default `0`, value `7`. -/
theorem C7_failed_set_keeps_optimistic_cache_witness :
    (fun (_ : String) => true) (syncStore "k" (0 : Int) true none).key = true
    ∧ ((SyncStore.setFallible (fun _ => true) (syncStore "k" (0 : Int) true none)
          ⟨fun _ => none⟩ 7).2.2.2 = false
       ∧ (SyncStore.setFallible (fun _ => true) (syncStore "k" (0 : Int) true none)
          ⟨fun _ => none⟩ 7).1.currentValue = 7
       ∧ (SyncStore.setFallible (fun _ => true) (syncStore "k" (0 : Int) true none)
          ⟨fun _ => none⟩ 7).1.notified = (syncStore "k" (0 : Int) true none).notified ++ [7]
       ∧ (SyncStore.setFallible (fun _ => true) (syncStore "k" (0 : Int) true none)
          ⟨fun _ => none⟩ 7).2.1 = ⟨fun _ => none⟩) :=
  ⟨rfl, C7_failed_set_keeps_optimistic_cache (fun _ => true)
    (syncStore "k" (0 : Int) true none) ⟨fun _ => none⟩ 7 rfl⟩

/-- C8: a freshly created plain store over a backend holding no value
under its key returns `defaultValue` from `get()`; afterwards the
backend contains `defaultValue` under the key and the cache is still
`defaultValue` (the absent branch of the readiness pull seeds the
backend without touching the cache). -/
theorem C8_fresh_store_empty_backend_returns_default
    (key : String) (d : V) (sfe : Bool) (b : Backend V)
    (h : b.get key = none) :
    (SyncStore.get (syncStore key d sfe none) b).1 = d
    ∧ (SyncStore.get (syncStore key d sfe none) b).2.2.1.get key = some d
    ∧ (SyncStore.get (syncStore key d sfe none) b).2.1.currentValue = d := by
  simp [SyncStore.get, ready, updateFromBackend, syncStore, effectiveKey,
    Backend.get] at *
  simp [h, Backend.setVal]

/-- Witness for C8 at a concrete input: key `"hey"`, default `3`, empty
backend. -/
theorem C8_fresh_store_empty_backend_returns_default_witness :
    (Backend.get (V := Int) ⟨fun _ => none⟩ "hey" = none)
    ∧ ((SyncStore.get (syncStore "hey" (3 : Int) true none) ⟨fun _ => none⟩).1 = 3
       ∧ (SyncStore.get (syncStore "hey" (3 : Int) true none) ⟨fun _ => none⟩).2.2.1.get "hey"
          = some 3
       ∧ (SyncStore.get (syncStore "hey" (3 : Int) true none) ⟨fun _ => none⟩).2.1.currentValue
          = 3) :=
  ⟨rfl, C8_fresh_store_empty_backend_returns_default "hey" 3 true ⟨fun _ => none⟩ rfl⟩

/-- C9: calling `reset()` twice in a row yields the same observable
state — cached value, subscriber-visible value, and backend contents —
as calling `reset()` once. -/
theorem C9_reset_idempotent (s : SyncStore V) (b : Backend V) :
    observableState ((s.reset b).1.reset (s.reset b).2.1).1
        ((s.reset b).1.reset (s.reset b).2.1).2.1
      = observableState (s.reset b).1 (s.reset b).2.1 := by
  simp only [SyncStore.reset, SyncStore.set, setStore, observableState]
  refine congrArg₂ _ rfl (congrArg₂ _ ?_ ?_)
  · simp
  · funext k'
    by_cases hk : k' = s.key <;> simp [Backend.setVal, hk]

/-! ## Lemmas about the migration pass -/

theorem migOldKey_def (keyPure sep : String) (ov : Int) :
    migOldKey keyPure sep ov
      = if ov = -1 then keyPure else keyPure ++ sep ++ toString ov := rfl

theorem runMigrations_cons_none (sep : String) (s : SyncStore V) (b : Backend V)
    (ov : Int) (f : V → V) (rest : List (Int × (V → V)))
    (hb : b.get (migOldKey s.keyPure sep ov) = none) :
    runMigrations sep ((ov, f) :: rest) s b =
      ((runMigrations sep rest s b).1, (runMigrations sep rest s b).2.1,
       Ev.bRead (migOldKey s.keyPure sep ov) none :: (runMigrations sep rest s b).2.2) := by
  simp only [runMigrations, migrateStep, ← migOldKey_def, hb]
  simp

theorem runMigrations_cons_some (sep : String) (s : SyncStore V) (b : Backend V)
    (ov : Int) (f : V → V) (rest : List (Int × (V → V))) (v : V)
    (hb : b.get (migOldKey s.keyPure sep ov) = some v) :
    runMigrations sep ((ov, f) :: rest) s b =
      ((runMigrations sep rest
          { s with notified := s.notified ++ [f v], currentValue := f v }
          ((b.setVal s.key (f v)).removeKey (migOldKey s.keyPure sep ov))).1,
       (runMigrations sep rest
          { s with notified := s.notified ++ [f v], currentValue := f v }
          ((b.setVal s.key (f v)).removeKey (migOldKey s.keyPure sep ov))).2.1,
       Ev.bRead (migOldKey s.keyPure sep ov) (some v) :: Ev.notify (f v) ::
         Ev.cacheUpdate (f v) :: Ev.bWrite s.key (f v) ::
         Ev.bRemove (migOldKey s.keyPure sep ov) ::
         (runMigrations sep rest
            { s with notified := s.notified ++ [f v], currentValue := f v }
            ((b.setVal s.key (f v)).removeKey (migOldKey s.keyPure sep ov))).2.2) := by
  simp only [runMigrations, migrateStep, ← migOldKey_def, hb, SyncStore.set, setStore]
  simp

theorem runMigrations_fields (sep : String) (L : List (Int × (V → V)))
    (s : SyncStore V) (b : Backend V) :
    (runMigrations sep L s b).1.keyPure = s.keyPure
    ∧ (runMigrations sep L s b).1.key = s.key
    ∧ (runMigrations sep L s b).1.defaultValue = s.defaultValue
    ∧ (runMigrations sep L s b).1.isReady = s.isReady
    ∧ (runMigrations sep L s b).1.versionedOptions = s.versionedOptions
    ∧ (runMigrations sep L s b).1.syncFromExternal = s.syncFromExternal := by
  induction L generalizing s b with
  | nil => exact ⟨rfl, rfl, rfl, rfl, rfl, rfl⟩
  | cons hd rest ih =>
      obtain ⟨ov, f⟩ := hd
      cases hb : b.get (migOldKey s.keyPure sep ov) with
      | none =>
          rw [runMigrations_cons_none sep s b ov f rest hb]
          exact ih s b
      | some v =>
          rw [runMigrations_cons_some sep s b ov f rest v hb]
          exact ih _ _

theorem runMigrations_frame (sep : String) (L : List (Int × (V → V)))
    (s : SyncStore V) (b : Backend V) (k : String)
    (hk : k ≠ s.key)
    (hold : ∀ p ∈ L, k ≠ migOldKey s.keyPure sep p.1) :
    (runMigrations sep L s b).2.1.get k = b.get k := by
  induction L generalizing s b with
  | nil => rfl
  | cons hd rest ih =>
      obtain ⟨ov, f⟩ := hd
      have h0 : k ≠ migOldKey s.keyPure sep ov := hold (ov, f) (List.mem_cons_self _ _)
      have hold' : ∀ p ∈ rest, k ≠ migOldKey s.keyPure sep p.1 :=
        fun p hp => hold p (List.mem_cons_of_mem _ hp)
      cases hb : b.get (migOldKey s.keyPure sep ov) with
      | none =>
          rw [runMigrations_cons_none sep s b ov f rest hb]
          exact ih s b hk hold'
      | some v =>
          rw [runMigrations_cons_some sep s b ov f rest v hb]
          have hrec : (runMigrations sep rest
              { s with notified := s.notified ++ [f v], currentValue := f v }
              ((b.setVal s.key (f v)).removeKey (migOldKey s.keyPure sep ov))).2.1.get k
              = ((b.setVal s.key (f v)).removeKey (migOldKey s.keyPure sep ov)).get k :=
            ih _ _ hk hold'
          rw [hrec]
          simp [Backend.get, Backend.removeKey, Backend.setVal, h0, hk]

theorem specMigrationTrace_congr (keyPure sep key : String)
    (b₁ b₂ : Backend V) (L : List (Int × (V → V)))
    (h : ∀ p ∈ L, b₁.get (migOldKey keyPure sep p.1)
      = b₂.get (migOldKey keyPure sep p.1)) :
    specMigrationTrace keyPure sep key b₁ L
      = specMigrationTrace keyPure sep key b₂ L := by
  induction L with
  | nil => rfl
  | cons hd rest ih =>
      obtain ⟨ov, f⟩ := hd
      have h0 := h (ov, f) (List.mem_cons_self _ _)
      simp only [specMigrationTrace, ← h0]
      cases hb : b₁.get (migOldKey keyPure sep ov) <;>
        simp [hb, ih fun p hp => h p (List.mem_cons_of_mem _ hp)]

theorem specMigrationValue_congr (keyPure sep : String)
    (b₁ b₂ : Backend V) (c : V) (L : List (Int × (V → V)))
    (h : ∀ p ∈ L, b₁.get (migOldKey keyPure sep p.1)
      = b₂.get (migOldKey keyPure sep p.1)) :
    specMigrationValue keyPure sep b₁ c L
      = specMigrationValue keyPure sep b₂ c L := by
  induction L generalizing c with
  | nil => rfl
  | cons hd rest ih =>
      obtain ⟨ov, f⟩ := hd
      have h0 := h (ov, f) (List.mem_cons_self _ _)
      simp only [specMigrationValue, ← h0]
      cases hb : b₁.get (migOldKey keyPure sep ov) <;>
        simp [hb, ih _ fun p hp => h p (List.mem_cons_of_mem _ hp)]

theorem specMigrationValueO_congr (keyPure sep : String)
    (b₁ b₂ : Backend V) (o : Option V) (L : List (Int × (V → V)))
    (h : ∀ p ∈ L, b₁.get (migOldKey keyPure sep p.1)
      = b₂.get (migOldKey keyPure sep p.1)) :
    specMigrationValueO keyPure sep b₁ o L
      = specMigrationValueO keyPure sep b₂ o L := by
  induction L generalizing o with
  | nil => rfl
  | cons hd rest ih =>
      obtain ⟨ov, f⟩ := hd
      have h0 := h (ov, f) (List.mem_cons_self _ _)
      simp only [specMigrationValueO, ← h0]
      cases hb : b₁.get (migOldKey keyPure sep ov) <;>
        simp [hb, ih _ fun p hp => h p (List.mem_cons_of_mem _ hp)]

theorem runMigrations_spec (sep : String) (L : List (Int × (V → V)))
    (s : SyncStore V) (b : Backend V)
    (hkey : ∀ p ∈ L, migOldKey s.keyPure sep p.1 ≠ s.key)
    (hnd : (L.map fun p => migOldKey s.keyPure sep p.1).Nodup) :
    (runMigrations sep L s b).2.2 = specMigrationTrace s.keyPure sep s.key b L
    ∧ (runMigrations sep L s b).1.currentValue
        = specMigrationValue s.keyPure sep b s.currentValue L
    ∧ (runMigrations sep L s b).2.1.get s.key
        = specMigrationValueO s.keyPure sep b (b.get s.key) L := by
  induction L generalizing s b with
  | nil => exact ⟨rfl, rfl, rfl⟩
  | cons hd rest ih =>
      obtain ⟨ov, f⟩ := hd
      have hkey0 : migOldKey s.keyPure sep ov ≠ s.key :=
        hkey (ov, f) (List.mem_cons_self _ _)
      have hkey' : ∀ p ∈ rest, migOldKey s.keyPure sep p.1 ≠ s.key :=
        fun p hp => hkey p (List.mem_cons_of_mem _ hp)
      have hndc : (migOldKey s.keyPure sep ov ::
          rest.map fun p => migOldKey s.keyPure sep p.1).Nodup := by
        simpa only [List.map_cons] using hnd
      have hnd0 : migOldKey s.keyPure sep ov ∉
          rest.map fun p => migOldKey s.keyPure sep p.1 := (List.nodup_cons.mp hndc).1
      have hnd' : (rest.map fun p => migOldKey s.keyPure sep p.1).Nodup :=
        (List.nodup_cons.mp hndc).2
      cases hb : b.get (migOldKey s.keyPure sep ov) with
      | none =>
          rw [runMigrations_cons_none sep s b ov f rest hb]
          obtain ⟨ht, hv, ho⟩ := ih s b hkey' hnd'
          refine ⟨?_, ?_, ?_⟩
          · simp only [specMigrationTrace, hb]
            rw [ht]
          · simp only [specMigrationValue, hb]
            exact hv
          · simp only [specMigrationValueO, hb]
            exact ho
      | some v =>
          rw [runMigrations_cons_some sep s b ov f rest v hb]
          have hagree : ∀ p ∈ rest,
              ((b.setVal s.key (f v)).removeKey (migOldKey s.keyPure sep ov)).get
                  (migOldKey s.keyPure sep p.1)
                = b.get (migOldKey s.keyPure sep p.1) := by
            intro p hp
            have hne1 : migOldKey s.keyPure sep p.1 ≠ migOldKey s.keyPure sep ov := by
              intro hEq
              exact hnd0
                (hEq ▸ List.mem_map_of_mem (fun q => migOldKey s.keyPure sep q.1) hp)
            have hne2 : migOldKey s.keyPure sep p.1 ≠ s.key := hkey' p hp
            simp [Backend.get, Backend.removeKey, Backend.setVal, hne1, hne2]
          have hbk : ((b.setVal s.key (f v)).removeKey
              (migOldKey s.keyPure sep ov)).get s.key = some (f v) := by
            simp [Backend.get, Backend.removeKey, Backend.setVal, Ne.symm hkey0]
          have ht : (runMigrations sep rest
              { s with notified := s.notified ++ [f v], currentValue := f v }
              ((b.setVal s.key (f v)).removeKey (migOldKey s.keyPure sep ov))).2.2
              = specMigrationTrace s.keyPure sep s.key
                  ((b.setVal s.key (f v)).removeKey (migOldKey s.keyPure sep ov)) rest :=
            (ih { s with notified := s.notified ++ [f v], currentValue := f v }
              ((b.setVal s.key (f v)).removeKey (migOldKey s.keyPure sep ov))
              hkey' hnd').1
          have hv : (runMigrations sep rest
              { s with notified := s.notified ++ [f v], currentValue := f v }
              ((b.setVal s.key (f v)).removeKey (migOldKey s.keyPure sep ov))).1.currentValue
              = specMigrationValue s.keyPure sep
                  ((b.setVal s.key (f v)).removeKey (migOldKey s.keyPure sep ov)) (f v) rest :=
            (ih { s with notified := s.notified ++ [f v], currentValue := f v }
              ((b.setVal s.key (f v)).removeKey (migOldKey s.keyPure sep ov))
              hkey' hnd').2.1
          have ho : (runMigrations sep rest
              { s with notified := s.notified ++ [f v], currentValue := f v }
              ((b.setVal s.key (f v)).removeKey (migOldKey s.keyPure sep ov))).2.1.get s.key
              = specMigrationValueO s.keyPure sep
                  ((b.setVal s.key (f v)).removeKey (migOldKey s.keyPure sep ov))
                  (((b.setVal s.key (f v)).removeKey (migOldKey s.keyPure sep ov)).get s.key)
                  rest :=
            (ih { s with notified := s.notified ++ [f v], currentValue := f v }
              ((b.setVal s.key (f v)).removeKey (migOldKey s.keyPure sep ov))
              hkey' hnd').2.2
          refine ⟨?_, ?_, ?_⟩
          · simp only [specMigrationTrace, hb]
            rw [ht, specMigrationTrace_congr s.keyPure sep s.key _ b rest hagree]
          · simp only [specMigrationValue, hb]
            rw [hv, specMigrationValue_congr s.keyPure sep _ b (f v) rest hagree]
          · simp only [specMigrationValueO, hb]
            rw [ho, hbk, specMigrationValueO_congr s.keyPure sep _ b (some (f v)) rest hagree]

theorem runMigrations_oldKeys_removed (sep : String)
    (L : List (Int × (V → V))) (s : SyncStore V) (b : Backend V)
    (hkey : ∀ p ∈ L, migOldKey s.keyPure sep p.1 ≠ s.key)
    (hnd : (L.map fun p => migOldKey s.keyPure sep p.1).Nodup) :
    ∀ p ∈ L, (runMigrations sep L s b).2.1.get (migOldKey s.keyPure sep p.1) = none := by
  induction L generalizing s b with
  | nil => intro p hp; cases hp
  | cons hd rest ih =>
      obtain ⟨ov, f⟩ := hd
      have hkey0 : migOldKey s.keyPure sep ov ≠ s.key :=
        hkey (ov, f) (List.mem_cons_self _ _)
      have hkey' : ∀ p ∈ rest, migOldKey s.keyPure sep p.1 ≠ s.key :=
        fun p hp => hkey p (List.mem_cons_of_mem _ hp)
      have hndc : (migOldKey s.keyPure sep ov ::
          rest.map fun p => migOldKey s.keyPure sep p.1).Nodup := by
        simpa only [List.map_cons] using hnd
      have hnd0 : migOldKey s.keyPure sep ov ∉
          rest.map fun p => migOldKey s.keyPure sep p.1 := (List.nodup_cons.mp hndc).1
      have hnd' : (rest.map fun p => migOldKey s.keyPure sep p.1).Nodup :=
        (List.nodup_cons.mp hndc).2
      have hnotin : ∀ p ∈ rest,
          migOldKey s.keyPure sep ov ≠ migOldKey s.keyPure sep p.1 := by
        intro p hp hEq
        exact hnd0
          (hEq ▸ List.mem_map_of_mem (fun q => migOldKey s.keyPure sep q.1) hp)
      intro p hp
      rcases List.mem_cons.mp hp with hph | hpt
      · subst hph
        cases hb : b.get (migOldKey s.keyPure sep ov) with
        | none =>
            rw [runMigrations_cons_none sep s b ov f rest hb]
            rw [runMigrations_frame sep rest s b _ hkey0 hnotin]
            exact hb
        | some v =>
            rw [runMigrations_cons_some sep s b ov f rest v hb]
            have hfr : (runMigrations sep rest
                { s with notified := s.notified ++ [f v], currentValue := f v }
                ((b.setVal s.key (f v)).removeKey
                  (migOldKey s.keyPure sep ov))).2.1.get (migOldKey s.keyPure sep ov)
                = ((b.setVal s.key (f v)).removeKey
                    (migOldKey s.keyPure sep ov)).get (migOldKey s.keyPure sep ov) :=
              runMigrations_frame sep rest _ _ _ hkey0 hnotin
            rw [hfr]
            simp [Backend.get, Backend.removeKey]
      · cases hb : b.get (migOldKey s.keyPure sep ov) with
        | none =>
            rw [runMigrations_cons_none sep s b ov f rest hb]
            exact ih s b hkey' hnd' p hpt
        | some v =>
            rw [runMigrations_cons_some sep s b ov f rest v hb]
            exact ih { s with notified := s.notified ++ [f v], currentValue := f v }
              ((b.setVal s.key (f v)).removeKey (migOldKey s.keyPure sep ov))
              hkey' hnd' p hpt

theorem ready_of_isReady (s : SyncStore V) (b : Backend V)
    (h : s.isReady = true) : ready s b = (s, b, []) := by
  simp [ready, h]

/-! ## Claim theorems: migration pass and `ready()` -/

/-- C3: the migration pass of a versioned store's first `ready()`
processes the strategies in the order supplied by the caller and, when
the strategies' old keys are distinct from each other and from the
current effective key, behaves per strategy exactly as described: the
old effective key is the base key alone for the `-1` sentinel and
`baseKey ⧺ separator ⧺ oldVersion` otherwise; an absent old key is a
no-op (only a read appears in the trace); a present value `v` leads to
`set(migrate(v))` — notification, cache update and backend write under
the current effective key — followed by removal of the old key; the
final cached value and backend entry follow the last-strategy-wins fold,
and every old key is absent afterwards. -/
theorem C3_migration_pass_per_strategy (sep : String) (L : List (Int × (V → V)))
    (s : SyncStore V) (b : Backend V)
    (hkey : ∀ p ∈ L, migOldKey s.keyPure sep p.1 ≠ s.key)
    (hnd : (L.map fun p => migOldKey s.keyPure sep p.1).Nodup) :
    (runMigrations sep L s b).2.2 = specMigrationTrace s.keyPure sep s.key b L
    ∧ (runMigrations sep L s b).1.currentValue
        = specMigrationValue s.keyPure sep b s.currentValue L
    ∧ (runMigrations sep L s b).2.1.get s.key
        = specMigrationValueO s.keyPure sep b (b.get s.key) L
    ∧ ∀ p ∈ L, (runMigrations sep L s b).2.1.get (migOldKey s.keyPure sep p.1) = none := by
  obtain ⟨ht, hv, ho⟩ := runMigrations_spec sep L s b hkey hnd
  exact ⟨ht, hv, ho, runMigrations_oldKeys_removed sep L s b hkey hnd⟩

/-- Witness for C3 at a concrete input: base key `"arch"`, separator
`"$$"`, version 1, strategies `[(-1, +1000), (0, *2)]`, backend holding
`64` under `"arch"` and `7` under `"arch$$0"` (the last strategy wins:
the final value is `14`). -/
theorem C3_migration_pass_per_strategy_witness :
    ((∀ p ∈ wMigs, migOldKey wMigStore.keyPure "$$" p.1 ≠ wMigStore.key)
      ∧ (wMigs.map fun p => migOldKey wMigStore.keyPure "$$" p.1).Nodup)
    ∧ ((runMigrations "$$" wMigs wMigStore wMigBackend).2.2
          = specMigrationTrace wMigStore.keyPure "$$" wMigStore.key wMigBackend wMigs
       ∧ (runMigrations "$$" wMigs wMigStore wMigBackend).1.currentValue
          = specMigrationValue wMigStore.keyPure "$$" wMigBackend
              wMigStore.currentValue wMigs
       ∧ (runMigrations "$$" wMigs wMigStore wMigBackend).2.1.get wMigStore.key
          = specMigrationValueO wMigStore.keyPure "$$" wMigBackend
              (wMigBackend.get wMigStore.key) wMigs
       ∧ ∀ p ∈ wMigs, (runMigrations "$$" wMigs wMigStore wMigBackend).2.1.get
            (migOldKey wMigStore.keyPure "$$" p.1) = none) :=
  ⟨⟨by decide, by decide⟩,
   C3_migration_pass_per_strategy "$$" wMigs wMigStore wMigBackend
     (by decide) (by decide)⟩

/-- C4 (amended): in a versioned store's first `ready()`, the migration
strategies are processed *after* the normal pull-or-seed step; when the
current effective key is initially absent, the absent branch *is* taken
— `defaultValue` is written to the backend under the current effective
key — even if a migration strategy applies, but each applying strategy's
`set()` subsequently overwrites it, so the final cache and backend entry
follow the last-strategy-wins fold (seeded with `defaultValue` on the
backend side), and the store ends ready. -/
theorem C4_pull_or_seed_precedes_migrations
    (vo : VersionedOptions V) (s : SyncStore V) (b : Backend V)
    (hR : s.isReady = false)
    (hvo : s.versionedOptions = some vo)
    (hb : b.get s.key = none)
    (hkey : ∀ p ∈ vo.migrations, migOldKey s.keyPure vo.seperator p.1 ≠ s.key)
    (hnd : (vo.migrations.map fun p => migOldKey s.keyPure vo.seperator p.1).Nodup) :
    (ready s b).2.2
      = Ev.bRead s.key none :: Ev.bWrite s.key s.defaultValue ::
        specMigrationTrace s.keyPure vo.seperator s.key b vo.migrations
    ∧ (ready s b).1.currentValue
        = specMigrationValue s.keyPure vo.seperator b s.currentValue vo.migrations
    ∧ (ready s b).2.1.get s.key
        = specMigrationValueO s.keyPure vo.seperator b (some s.defaultValue) vo.migrations
    ∧ (ready s b).1.isReady = true := by
  have hagree : ∀ p ∈ vo.migrations,
      (b.setVal s.key s.defaultValue).get (migOldKey s.keyPure vo.seperator p.1)
        = b.get (migOldKey s.keyPure vo.seperator p.1) := by
    intro p hp
    simp [Backend.get, Backend.setVal, hkey p hp]
  obtain ⟨ht, hv, ho⟩ := runMigrations_spec vo.seperator vo.migrations s
    (b.setVal s.key s.defaultValue) hkey hnd
  have hbk : (b.setVal s.key s.defaultValue).get s.key = some s.defaultValue := by
    simp [Backend.get, Backend.setVal]
  simp only [ready, hR, Bool.false_eq_true, if_false, updateFromBackend, hb, hvo]
  refine ⟨?_, ?_, ?_, ?_⟩
  · rw [ht, specMigrationTrace_congr s.keyPure vo.seperator s.key _ b
      vo.migrations hagree]
    simp
  · rw [hv, specMigrationValue_congr s.keyPure vo.seperator _ b s.currentValue
      vo.migrations hagree]
  · rw [ho, hbk, specMigrationValueO_congr s.keyPure vo.seperator _ b
      (some s.defaultValue) vo.migrations hagree]
  · trivial

/-- Witness for C4 (amended) at a concrete input: versioned store
`wMigStoreC4` (base `"arch"`, version 1, sentinel strategy `+1`),
backend holding `10` under `"arch"` only. -/
theorem C4_pull_or_seed_precedes_migrations_witness :
    (wMigStoreC4.isReady = false
      ∧ wMigStoreC4.versionedOptions = some ⟨1, "$$", [(-1, fun v => v + 1)]⟩
      ∧ wBackendC4.get wMigStoreC4.key = none)
    ∧ ((ready wMigStoreC4 wBackendC4).2.2
        = Ev.bRead wMigStoreC4.key none ::
          Ev.bWrite wMigStoreC4.key wMigStoreC4.defaultValue ::
          specMigrationTrace wMigStoreC4.keyPure "$$" wMigStoreC4.key wBackendC4
            [(-1, fun v => v + 1)]
       ∧ (ready wMigStoreC4 wBackendC4).1.currentValue
          = specMigrationValue wMigStoreC4.keyPure "$$" wBackendC4
              wMigStoreC4.currentValue [(-1, fun v => v + 1)]
       ∧ (ready wMigStoreC4 wBackendC4).2.1.get wMigStoreC4.key
          = specMigrationValueO wMigStoreC4.keyPure "$$" wBackendC4
              (some wMigStoreC4.defaultValue) [(-1, fun v => v + 1)]
       ∧ (ready wMigStoreC4 wBackendC4).1.isReady = true) :=
  ⟨⟨rfl, rfl, rfl⟩,
   C4_pull_or_seed_precedes_migrations ⟨1, "$$", [(-1, fun v => v + 1)]⟩
     wMigStoreC4 wBackendC4 rfl rfl rfl (by decide) (by decide)⟩

/-- C4 counterexample: with backend `{"arch" ↦ 10}` and the versioned
store `wMigStoreC4` (effective key `"arch$$1"`, default `0`, sentinel
strategy `+1`), the sentinel migration applies, yet the absent branch of
the pull-or-seed step *is* taken: `ready()`'s trace starts with the pull
(read of `"arch$$1"`, seed write of default `0`) and only then performs
the migration — refuting the claim that the seed write is never issued
when a migration applies, and that migrations run before the pull. -/
theorem C4_counterexample_seed_write_despite_migration :
    wBackendC4.get (migOldKey "arch" "$$" (-1)) = some 10
    ∧ Ev.bWrite "arch$$1" 0 ∈ (ready wMigStoreC4 wBackendC4).2.2
    ∧ (ready wMigStoreC4 wBackendC4).2.2
        = [Ev.bRead "arch$$1" none, Ev.bWrite "arch$$1" 0,
           Ev.bRead "arch" (some 10), Ev.notify 11, Ev.cacheUpdate 11,
           Ev.bWrite "arch$$1" 11, Ev.bRemove "arch"] := by
  decide

/-- C1 (amended): once a `ready()` invocation has run to completion, the
store is marked ready, and a second sequential `ready()` call is a
complete no-op — it changes nothing and emits no events, so no second
backend read occurs and no migration strategy is applied again. -/
theorem C1_second_sequential_ready_is_noop (s : SyncStore V) (b : Backend V) :
    (ready s b).1.isReady = true
    ∧ ready (ready s b).1 (ready s b).2.1 = ((ready s b).1, (ready s b).2.1, []) := by
  have h1 : (ready s b).1.isReady = true := by
    by_cases hR : s.isReady = true
    · simp [ready, hR]
    · simp only [ready, hR, if_false]
      cases hvo : (updateFromBackend s b).1.versionedOptions <;> simp
  exact ⟨h1, ready_of_isReady _ _ h1⟩

/-- C1 counterexample: two concurrent `ready()` invocations on the same
fresh store (key `"k"`, backend value `5` present), interleaved
cooperatively so that the second starts before the first's backend read
has resolved (schedule A, B, A, B): both tasks pass the `isReady` guard
— after two scheduler steps both sit suspended behind their own backend
`get` — and the completed run performs two backend reads of the store's
key, refuting "no second backend read occurs". -/
theorem C1_counterexample_concurrent_double_read :
    (runSched (initTwoReady wPlainStore wBackendC1) [false, true]).pcA
        = TaskPC.resumeGet (some 5)
    ∧ (runSched (initTwoReady wPlainStore wBackendC1) [false, true]).pcB
        = TaskPC.resumeGet (some 5)
    ∧ readCount (runSched (initTwoReady wPlainStore wBackendC1)
        [false, true, false, true]).trace = 2
    ∧ (runSched (initTwoReady wPlainStore wBackendC1)
        [false, true, false, true]).store.isReady = true := by
  decide

/-! ## Claim theorems: registry -/

/-- C5 (code bug): `addSyncStore` of `src/web-ext-stores.ts` registers
the store under its base-key *parameter*, not under the store's
effective key: at the concrete input
`addSyncStore(registry, "arch", 0, true, {version: 1, seperator: "$$"})`
the created store's effective key is `"arch$$1"`, the registry map entry
is keyed `"arch"`, and the change-dispatch lookup under the effective
key `"arch$$1"` finds no store. -/
theorem C5_versioned_store_registered_under_base_key :
    (addSyncStore (⟨[]⟩ : Registry Int) "arch" 0 true (some ⟨1, "$$", []⟩)).1.key
        = "arch$$1"
    ∧ (addSyncStore (⟨[]⟩ : Registry Int) "arch" 0 true (some ⟨1, "$$", []⟩)).2.stores
        = [("arch", syncStore "arch" 0 true (some ⟨1, "$$", []⟩))]
    ∧ mapGet (addSyncStore (⟨[]⟩ : Registry Int) "arch" 0 true
        (some ⟨1, "$$", []⟩)).2.stores "arch$$1" = none
    ∧ "arch$$1" ≠ "arch" := by
  refine ⟨rfl, rfl, ?_, by decide⟩
  simp [addSyncStore, mapSet, mapGet]

theorem mapGet_mapSet {A : Type} (m : List (String × A)) (k k' : String) (a : A) :
    mapGet (mapSet m k a) k' = if k' = k then some a else mapGet m k' := by
  induction m with
  | nil =>
      by_cases h : k' = k
      · simp [mapGet, mapSet, h]
      · simp [mapGet, mapSet, h, Ne.symm h]
  | cons hd t ih =>
      obtain ⟨k1, a1⟩ := hd
      by_cases h1 : k1 = k
      · subst h1
        by_cases h2 : k' = k1
        · simp [mapGet, mapSet, h2]
        · have h3 : ¬ (k1 = k') := fun hh => h2 hh.symm
          simp [mapGet, mapSet, h2, h3]
      · by_cases h2 : k' = k
        · subst h2
          have h3 : ¬ (k1 = k') := h1
          simp [mapGet, mapSet, h1, h3, ih]
        · by_cases h4 : k1 = k'
          · simp [mapGet, mapSet, h1, h2, h4]
          · simp [mapGet, mapSet, h1, h2, h4, ih]

theorem mapGet_mem {A : Type} (m : List (String × A)) (k : String) (a : A)
    (h : mapGet m k = some a) : (k, a) ∈ m := by
  induction m with
  | nil => cases h
  | cons hd t ih =>
      obtain ⟨k1, a1⟩ := hd
      by_cases h1 : k1 = k
      · subst h1
        rw [mapGet, if_pos rfl] at h
        obtain rfl : a1 = a := Option.some.inj h
        exact List.mem_cons_self _ _
      · rw [mapGet, if_neg h1] at h
        exact List.mem_cons_of_mem _ (ih h)

theorem mem_mapSet {A : Type} (m : List (String × A)) (k : String) (a : A)
    (p : String × A) (hp : p ∈ mapSet m k a) : p ∈ m ∨ p = (k, a) := by
  induction m with
  | nil =>
      right
      simpa [mapSet] using hp
  | cons hd t ih =>
      obtain ⟨k1, a1⟩ := hd
      by_cases h1 : k1 = k
      · subst h1
        rw [mapSet, if_pos rfl] at hp
        rcases List.mem_cons.mp hp with h | h
        · right; exact h
        · left; exact List.mem_cons_of_mem _ h
      · rw [mapSet, if_neg h1] at hp
        rcases List.mem_cons.mp hp with h | h
        · left
          rw [h]
          exact List.mem_cons_self _ _
        · rcases ih h with h' | h'
          · left; exact List.mem_cons_of_mem _ h'
          · right; exact h'

/-- C2 (amended): the registry's change listener, per changed key:
skips the key when no store is registered under it or when the store has
`syncFromExternal = false` (in both the stale-guard and the `setRaw`
variant), and additionally, in the stale-guard variant, when the
reported `oldValue` differs from the store's `getCurrent()`.  An
accepted change updates the target store's cache and notifies its
subscribers with the new value; in the `setRaw` variant no backend write
can occur, but in the stale-guard variant the accepted value *is*
written back to the backend (via `store.set`). -/
theorem C2_dispatch_guards_and_apply [DecidableEq V] (r : Registry V)
    (b : Backend V) (key : String) (ch : StorageChange V) :
    (mapGet r.stores key = none →
      dispatchOne r b key ch = (r, b, []) ∧ dispatchOneRaw r key ch = (r, []))
    ∧ (∀ s, mapGet r.stores key = some s → s.syncFromExternal = false →
      dispatchOne r b key ch = (r, b, []) ∧ dispatchOneRaw r key ch = (r, []))
    ∧ (∀ s, mapGet r.stores key = some s → ch.oldValue ≠ some s.currentValue →
      dispatchOne r b key ch = (r, b, []))
    ∧ (∀ s, mapGet r.stores key = some s → s.syncFromExternal = true →
      ch.oldValue = some s.currentValue →
      (∃ s', mapGet (dispatchOne r b key ch).1.stores key = some s'
        ∧ s'.currentValue = ch.newValue
        ∧ s'.notified = s.notified ++ [ch.newValue])
      ∧ (dispatchOne r b key ch).2.1 = b.setVal s.key ch.newValue
      ∧ Ev.bWrite s.key ch.newValue ∈ (dispatchOne r b key ch).2.2)
    ∧ (∀ s, mapGet r.stores key = some s → s.syncFromExternal = true →
      (∃ s', mapGet (dispatchOneRaw r key ch).1.stores key = some s'
        ∧ s'.currentValue = ch.newValue)
      ∧ ∀ k' v', Ev.bWrite k' v' ∉ (dispatchOneRaw r key ch).2) := by
  refine ⟨?_, ?_, ?_, ?_, ?_⟩
  · intro h
    simp [dispatchOne, dispatchOneRaw, h]
  · intro s hs hsf
    simp [dispatchOne, dispatchOneRaw, hs, hsf]
  · intro s hs hold
    simp [dispatchOne, hs, hold]
  · intro s hs hsf hold
    have hcond : s.syncFromExternal = true ∧ ch.oldValue = some s.currentValue :=
      ⟨hsf, hold⟩
    simp only [dispatchOne, hs]
    rw [if_pos hcond]
    refine ⟨⟨(setStore s ch.newValue).1, ?_, rfl, rfl⟩, rfl, ?_⟩
    · simp only [mapGet_mapSet, if_pos rfl]
      rfl
    · simp [SyncStore.set, setStore]
  · intro s hs hsf
    simp only [dispatchOneRaw, hs]
    rw [if_pos hsf]
    constructor
    · refine ⟨(s.setRaw ch.newValue).1, ?_, ?_⟩
      · simp [mapGet_mapSet]
      · by_cases h : ch.newValue = s.currentValue
        · simp [SyncStore.setRaw, h]
        · simp [SyncStore.setRaw, h]
    · intro k' v'
      by_cases h : ch.newValue = s.currentValue
      · simp [SyncStore.setRaw, h]
      · simp [SyncStore.setRaw, setStore, h]

/-- Witness for C2 at a concrete input: registry `{"k" ↦ wRegStore}`
(cache `1`), change `{oldValue: 1, newValue: 2}`; both accepted-change
conclusions instantiated. -/
theorem C2_dispatch_guards_and_apply_witness :
    (mapGet wRegistry.stores "k" = some wRegStore
      ∧ wRegStore.syncFromExternal = true
      ∧ wChange.oldValue = some wRegStore.currentValue)
    ∧ ((∃ s', mapGet (dispatchOne wRegistry wEmptyBackend "k" wChange).1.stores "k"
          = some s'
        ∧ s'.currentValue = wChange.newValue
        ∧ s'.notified = wRegStore.notified ++ [wChange.newValue])
       ∧ (dispatchOne wRegistry wEmptyBackend "k" wChange).2.1
          = wEmptyBackend.setVal wRegStore.key wChange.newValue
       ∧ Ev.bWrite wRegStore.key wChange.newValue
          ∈ (dispatchOne wRegistry wEmptyBackend "k" wChange).2.2)
    ∧ ((∃ s', mapGet (dispatchOneRaw wRegistry "k" wChange).1.stores "k" = some s'
        ∧ s'.currentValue = wChange.newValue)
       ∧ ∀ k' v', Ev.bWrite k' v' ∉ (dispatchOneRaw wRegistry "k" wChange).2) :=
  ⟨⟨rfl, rfl, rfl⟩,
   (C2_dispatch_guards_and_apply wRegistry wEmptyBackend "k" wChange).2.2.2.1
     wRegStore rfl rfl rfl,
   (C2_dispatch_guards_and_apply wRegistry wEmptyBackend "k" wChange).2.2.2.2
     wRegStore rfl rfl⟩

/-- C2 counterexample: in the stale-guard variant (the listener of
`src/web-ext-stores.ts`), an accepted change *is* written back to the
backend: with `wRegistry` holding `wRegStore` (cache `1`) under `"k"`,
an empty backend, and the batch entry `"k" ↦ {oldValue: 1, newValue:
2}`, the dispatch issues a backend write of `2` under `"k"` and the
backend afterwards holds `2` — refuting "without the Registry writing
that value back to the backend". -/
theorem C2_counterexample_accepted_change_writes_backend :
    wEmptyBackend.get "k" = none
    ∧ (dispatchOne wRegistry wEmptyBackend "k" wChange).2.1.get "k" = some 2
    ∧ Ev.bWrite "k" 2 ∈ (dispatchOne wRegistry wEmptyBackend "k" wChange).2.2 := by
  decide

/-! ## Lemmas about `exportJson` / `importJson` -/

theorem exportStores_aligned (m : List (String × SyncStore V)) (b : Backend V) :
    (exportStores m b).1
      = (exportStores m b).2.1.map (fun p => (p.1, p.2.currentValue))
    ∧ (exportStores m b).2.1.map Prod.fst = m.map Prod.fst := by
  induction m generalizing b with
  | nil => exact ⟨rfl, rfl⟩
  | cons hd t ih =>
      obtain ⟨k, s⟩ := hd
      obtain ⟨h1, h2⟩ := ih (SyncStore.get s b).2.2.1
      constructor
      · simp only [exportStores, List.map_cons]
        exact congrArg₂ List.cons rfl h1
      · simp only [exportStores, List.map_cons]
        exact congrArg₂ List.cons rfl h2

theorem mapSet_keys_of_mem {A : Type} (m : List (String × A)) (k : String)
    (a a' : A) (h : mapGet m k = some a') :
    (mapSet m k a).map Prod.fst = m.map Prod.fst := by
  induction m with
  | nil => cases h
  | cons hd t ih =>
      obtain ⟨k1, a1⟩ := hd
      by_cases h1 : k1 = k
      · subst h1
        rw [mapSet, if_pos rfl]
        simp
      · rw [mapGet, if_neg h1] at h
        rw [mapSet, if_neg h1]
        simp only [List.map_cons]
        exact congrArg₂ List.cons rfl (ih h)

theorem importStores_keys (data : List (String × V))
    (m : List (String × SyncStore V)) (b : Backend V) :
    (importStores data m b).1.map Prod.fst = m.map Prod.fst := by
  induction data generalizing m b with
  | nil => rfl
  | cons hd rest ih =>
      obtain ⟨k, v⟩ := hd
      cases hm : mapGet m k with
      | none =>
          simp only [importStores, hm]
          exact ih m b
      | some s =>
          simp only [importStores, hm]
          rw [ih (mapSet m k (SyncStore.set s b v).1) (SyncStore.set s b v).2.1]
          exact mapSet_keys_of_mem m k _ s hm

theorem importStores_skip_head (data : List (String × V)) (k : String)
    (s : SyncStore V) (t : List (String × SyncStore V)) (b : Backend V)
    (h : ∀ p ∈ data, p.1 ≠ k) :
    importStores data ((k, s) :: t) b
      = ((k, s) :: (importStores data t b).1, (importStores data t b).2) := by
  induction data generalizing t b with
  | nil => rfl
  | cons hd rest ih =>
      obtain ⟨k1, v1⟩ := hd
      have hk1 : k1 ≠ k := h (k1, v1) (List.mem_cons_self _ _)
      have h' : ∀ p ∈ rest, p.1 ≠ k := fun p hp => h p (List.mem_cons_of_mem _ hp)
      have hg : mapGet ((k, s) :: t) k1 = mapGet t k1 := by
        rw [mapGet, if_neg (Ne.symm hk1)]
      cases hm : mapGet t k1 with
      | none =>
          simp only [importStores, hg, hm]
          exact ih t b h'
      | some s1 =>
          simp only [importStores, hg, hm]
          rw [mapSet, if_neg (Ne.symm hk1)]
          exact ih (mapSet t k1 (SyncStore.set s1 b v1).1) (SyncStore.set s1 b v1).2.1 h'

theorem importStores_roundtrip (m : List (String × SyncStore V)) (b : Backend V)
    (hnd : (m.map Prod.fst).Nodup) :
    (importStores (m.map fun p => (p.1, p.2.currentValue)) m b).1.map
        (fun p => (p.1, p.2.currentValue))
      = m.map (fun p => (p.1, p.2.currentValue)) := by
  induction m generalizing b with
  | nil => rfl
  | cons hd t ih =>
      obtain ⟨k, s⟩ := hd
      have hndc : (k :: t.map Prod.fst).Nodup := by
        simpa only [List.map_cons] using hnd
      have hk : k ∉ t.map Prod.fst := (List.nodup_cons.mp hndc).1
      have hnd2 : (t.map Prod.fst).Nodup := (List.nodup_cons.mp hndc).2
      have hdata : ∀ p ∈ (t.map fun p => (p.1, p.2.currentValue)), p.1 ≠ k := by
        intro p hp
        obtain ⟨q, hq, hq2⟩ := List.mem_map.mp hp
        intro hEq
        apply hk
        rw [← hq2] at hEq
        exact hEq ▸ List.mem_map_of_mem Prod.fst hq
      have hg : mapGet ((k, s) :: t) k = some s := by
        rw [mapGet, if_pos rfl]
      simp only [List.map_cons, importStores, hg]
      rw [mapSet, if_pos rfl]
      rw [importStores_skip_head (t.map fun p => (p.1, p.2.currentValue)) k
        (SyncStore.set s b s.currentValue).1 t (SyncStore.set s b s.currentValue).2.1 hdata]
      simp only [List.map_cons]
      exact congrArg₂ List.cons rfl (ih (SyncStore.set s b s.currentValue).2.1 hnd2)

theorem importStores_backend_frame (data : List (String × V))
    (m : List (String × SyncStore V)) (b : Backend V) (k : String)
    (hk : ∀ p ∈ m, p.2.key ≠ k) :
    (importStores data m b).2.get k = b.get k := by
  induction data generalizing m b with
  | nil => rfl
  | cons hd rest ih =>
      obtain ⟨k1, v1⟩ := hd
      cases hm : mapGet m k1 with
      | none =>
          simp only [importStores, hm]
          exact ih m b hk
      | some s =>
          simp only [importStores, hm]
          have hsk : s.key ≠ k := hk (k1, s) (mapGet_mem m k1 s hm)
          have hk2 : ∀ p ∈ mapSet m k1 (SyncStore.set s b v1).1, p.2.key ≠ k := by
            intro p hp
            rcases mem_mapSet m k1 (SyncStore.set s b v1).1 p hp with h | h
            · exact hk p h
            · rw [h]
              exact hsk
          rw [ih (mapSet m k1 (SyncStore.set s b v1).1) (SyncStore.set s b v1).2.1 hk2]
          simp [SyncStore.set, Backend.get, Backend.setVal, hsk, Ne.symm hsk]

theorem importStores_ignores_unregistered (data : List (String × V))
    (m : List (String × SyncStore V)) (b : Backend V) :
    importStores data m b
      = importStores (data.filter fun p => (mapGet m p.1).isSome) m b := by
  induction data generalizing m b with
  | nil => rfl
  | cons hd rest ih =>
      obtain ⟨k1, v1⟩ := hd
      cases hm : mapGet m k1 with
      | none =>
          rw [List.filter_cons]
          simp only [hm, Option.isSome_none, if_false, Bool.false_eq_true]
          simp only [importStores, hm]
          exact ih m b
      | some s =>
          rw [List.filter_cons]
          simp only [hm, Option.isSome_some, if_true]
          simp only [importStores, hm]
          have hfil : (rest.filter fun p =>
              (mapGet (mapSet m k1 (SyncStore.set s b v1).1) p.1).isSome)
              = rest.filter fun p => (mapGet m p.1).isSome := by
            apply List.filter_congr
            intro p _
            rw [mapGet_mapSet]
            by_cases h : p.1 = k1
            · simp [h, hm]
            · simp [h]
          rw [ih (mapSet m k1 (SyncStore.set s b v1).1) (SyncStore.set s b v1).2.1, hfil]

/-! ## Claim theorem: export/import round trip -/

/-- C10: for a registry whose map keys are unique (a JS `Map`
invariant), importing the exact data produced by `exportJson` leaves
every registered store's value unchanged; `importJson` ignores input
keys with no registered store entirely (filtering them out of the input
changes nothing, and an empty input changes nothing), and it only ever
writes to the backend under registered stores' effective keys. -/
theorem C10_export_import_roundtrip (r : Registry V) (b : Backend V)
    (hnd : (r.stores.map Prod.fst).Nodup) :
    (importJson (exportJson r b).2.1 (exportJson r b).2.2 (exportJson r b).1).1.stores.map
        (fun p => (p.1, p.2.currentValue))
      = (exportJson r b).2.1.stores.map (fun p => (p.1, p.2.currentValue))
    ∧ (∀ data, importJson r b data
        = importJson r b (data.filter fun p => (mapGet r.stores p.1).isSome))
    ∧ importJson r b [] = (r, b)
    ∧ (∀ data k, (∀ p ∈ r.stores, p.2.key ≠ k) →
        (importJson r b data).2.get k = b.get k) := by
  refine ⟨?_, ?_, rfl, ?_⟩
  · obtain ⟨ha1, ha2⟩ := exportStores_aligned r.stores b
    have hnd2 : ((exportStores r.stores b).2.1.map Prod.fst).Nodup := by
      rw [ha2]
      exact hnd
    have hrt := importStores_roundtrip (exportStores r.stores b).2.1
      (exportStores r.stores b).2.2 hnd2
    simp only [importJson, exportJson]
    rw [ha1]
    exact hrt
  · intro data
    simp only [importJson]
    rw [← importStores_ignores_unregistered data r.stores b]
  · intro data k hk
    simp only [importJson]
    exact importStores_backend_frame data r.stores b k hk

/-- Witness for C10 at a concrete input: registry with two plain stores
(`"a" ↦ 1`, `"b" ↦ 2`) over an empty backend. -/
theorem C10_export_import_roundtrip_witness :
    (wRegistry10.stores.map Prod.fst).Nodup
    ∧ ((importJson (exportJson wRegistry10 wEmptyBackend).2.1
          (exportJson wRegistry10 wEmptyBackend).2.2
          (exportJson wRegistry10 wEmptyBackend).1).1.stores.map
            (fun p => (p.1, p.2.currentValue))
        = (exportJson wRegistry10 wEmptyBackend).2.1.stores.map
            (fun p => (p.1, p.2.currentValue))
       ∧ (∀ data, importJson wRegistry10 wEmptyBackend data
          = importJson wRegistry10 wEmptyBackend
              (data.filter fun p => (mapGet wRegistry10.stores p.1).isSome))
       ∧ importJson wRegistry10 wEmptyBackend [] = (wRegistry10, wEmptyBackend)
       ∧ (∀ data k, (∀ p ∈ wRegistry10.stores, p.2.key ≠ k) →
          (importJson wRegistry10 wEmptyBackend data).2.get k
            = wEmptyBackend.get k)) :=
  ⟨by decide, C10_export_import_roundtrip wRegistry10 wEmptyBackend (by decide)⟩

end SvelteWebextStores
